import Mathlib

/-!
Verification of the pycryptor batch encryption pipeline
(`src/pycryptor/__main__.py`) against its natural-language specification.

The GUI glue code in `__main__.py` drives a producer/consumer loop:
a background thread iterates `parallel.files_locker` and pushes
`(fname, fstat)` pairs onto a `collections.deque` with `appendleft`,
finishing with a sentinel pair; the Tk main thread drains the deque with
`pop()` (right end), updating a waitbox, the listbox colors and a
`defaultdict(int)` status tally, rescheduling itself via
`self.after(WAIT_TIME, ...)` when the deque is empty.

The engine module `parallel` (the per-file crypto work) is not part of the
excerpted source; where a claim depends on it, the definitions below are
modelled from the spec and say so in their doc comments.
-/

set_option maxHeartbeats 1000000

namespace Pycryptor

/-- Modelled from the spec: the six per-file status constants of the missing
`parallel` module (`SUCCESS`, `FAILURE`, `INVALID`, `FILE_NOT_FOUND`,
`FILE_EXISTS`, `PERMISSION_ERROR`) that `__main__.py` references. -/
inductive Status where
  | success
  | failure
  | invalid
  | fileNotFound
  | fileExists
  | permissionError
deriving DecidableEq, Repr

/-- Modelled from the spec: `parallel.files_locker` lazily yields exactly one
`(path, status)` pair per input path; the per-file classification (which of
the six statuses a path gets) is abstracted as an oracle `classify`. -/
def files_locker (paths : List String) (classify : String → Status) :
    List (String × Status) :=
  paths.map fun p => (p, classify p)

/-- Module-level constant of `__main__.py`: `WAIT_TIME = 200` (milliseconds). -/
def WAIT_TIME : Nat := 200

/-- An item crossing the handoff deque: either an outcome pair pushed by the
producer loop, or the sentinel pair `(_SENTINEL, _SENTINEL)` pushed once after
the engine is exhausted.  The code detects the sentinel by object identity
(`fname is _SENTINEL`); here that identity test is the constructor match. -/
inductive QItem where
  | outcome (fname : String) (fstat : Status)
  | sentinel
deriving DecidableEq, Repr

/-- Push at the left end of the deque, `q.appendleft(x)`.  The deque is
modelled as a list whose head is the left end. -/
def appendleft (q : List α) (x : α) : List α := x :: q

/-- Pop from the right end of the deque, `q.pop()`; `none` models the
`IndexError` raised on an empty deque. -/
def dequePop : List α → Option (α × List α)
  | [] => none
  | [x] => some (x, [])
  | x :: y :: xs =>
    match dequePop (y :: xs) with
    | some (z, zs) => some (z, x :: zs)
    | none => none

/-- The sequence of queue pushes performed by `EncDecFrame._producer`: one
`appendleft` per engine result, in yield order, then the sentinel exactly
once, and nothing afterwards. -/
def producerItems (results : List (String × Status)) : List QItem :=
  results.map (fun r => QItem.outcome r.1 r.2) ++ [QItem.sentinel]

/-- State of the producer/consumer handoff: `pending` is the list of queue
pushes the producer has not performed yet (in push order), `queue` is the
deque (head = left end, where the producer pushes), `consumed` is the list of
items the consumer has popped so far, in pop order. -/
structure SysState where
  pending : List QItem
  queue : List QItem
  consumed : List QItem
deriving DecidableEq, Repr

/-- One interleaving step: `true` lets the producer perform its next
`appendleft` (a no-op when it has finished), `false` lets the consumer
attempt one `pop()` (a no-op reschedule when the deque is empty). -/
def sysStep (s : SysState) : Bool → SysState
  | true =>
    match s.pending with
    | [] => s
    | i :: rest => { s with pending := rest, queue := appendleft s.queue i }
  | false =>
    match dequePop s.queue with
    | none => s
    | some (x, q) => { s with queue := q, consumed := s.consumed ++ [x] }

/-- Run the handoff system under an arbitrary interleaving schedule. -/
def sysRun (s : SysState) : List Bool → SysState
  | [] => s
  | b :: bs => sysRun (sysStep s b) bs

/-- Initial state for a batch whose engine yields `results`. -/
def initSys (results : List (String × Status)) : SysState :=
  ⟨producerItems results, [], []⟩

/-- The consumer's `_statdict`, a `defaultdict(int)` whose only keys ever read
are the six statuses: modelled as six counters, all starting at zero. -/
structure Tally where
  success : Nat
  failure : Nat
  invalid : Nat
  fileNotFound : Nat
  fileExists : Nat
  permissionError : Nat
deriving DecidableEq, Repr

/-- The empty `defaultdict(int)` created on the consumer's first invocation. -/
def Tally.zero : Tally := ⟨0, 0, 0, 0, 0, 0⟩

/-- Read the counter `statdict[fstat]`. -/
def Tally.get (t : Tally) : Status → Nat
  | .success => t.success
  | .failure => t.failure
  | .invalid => t.invalid
  | .fileNotFound => t.fileNotFound
  | .fileExists => t.fileExists
  | .permissionError => t.permissionError

/-- Increment `statdict[fstat] += 1` performed by `EncDecFrame._update`. -/
def Tally.bump (t : Tally) : Status → Tally
  | .success => { t with success := t.success + 1 }
  | .failure => { t with failure := t.failure + 1 }
  | .invalid => { t with invalid := t.invalid + 1 }
  | .fileNotFound => { t with fileNotFound := t.fileNotFound + 1 }
  | .fileExists => { t with fileExists := t.fileExists + 1 }
  | .permissionError => { t with permissionError := t.permissionError + 1 }

/-- Tally increments performed for a list of engine results, in order. -/
def Tally.bumpList (t : Tally) (out : List (String × Status)) : Tally :=
  out.foldl (fun a r => a.bump r.2) t

/-- Total of the six counters, as summed by the final results message. -/
def Tally.total (t : Tally) : Nat :=
  t.success + t.failure + t.invalid + t.fileNotFound + t.fileExists
    + t.permissionError

/-- Observable side effects of one `_consumer` invocation, in program order:
`waitbox.step()`, `_update_listbox_color`, the tally increment and
`master.update()` per outcome; `waitbox.destroy()`, `master.update()` (inside
`_cleanup`) and `_show_result` rendering the tally on the sentinel; one
`self.after(delay, ...)` when the deque runs empty. -/
inductive Effect where
  | waitboxStep
  | updateColor (fname : String) (fstat : Status)
  | tallyIncr (fstat : Status)
  | masterUpdate
  | waitboxDestroy
  | showResult (tally : Tally)
  | reschedule (delay : Nat)
deriving DecidableEq, Repr

/-- Result of one `_consumer` invocation: either the sentinel was received
(waitbox destroyed, results shown, loop exited with `leftover` still queued
and no further poll scheduled), or the deque ran empty and exactly one future
invocation was scheduled after `delay` ms with the very same queue, waitbox,
operation and tally arguments. -/
inductive ConsumerRes (W O : Type) where
  | finalized (tally : Tally) (leftover : List QItem)
  | rescheduled (delay : Nat) (waitbox : W) (op : O) (q : List QItem)
      (tally : Tally)
deriving DecidableEq

/-- The body of `EncDecFrame._consumer`, acting on the items of the deque in
pop order (oldest first): pop until empty (reschedule via `self.after`) or
until the sentinel (destroy the waitbox, `_cleanup`, break).  Each popped
outcome performs `waitbox.step()` then `_update`, which recolors the listbox
row, increments `statdict[fstat]` and calls `master.update()`. -/
def consumerDrain (waitbox : W) (op : O) :
    List QItem → Tally → List Effect × ConsumerRes W O
  | [], tally =>
    ([Effect.reschedule WAIT_TIME],
      .rescheduled WAIT_TIME waitbox op [] tally)
  | QItem.sentinel :: rest, tally =>
    ([Effect.waitboxDestroy, Effect.masterUpdate, Effect.showResult tally],
      .finalized tally rest)
  | QItem.outcome f s :: rest, tally =>
    let (es, r) := consumerDrain waitbox op rest (tally.bump s)
    (Effect.waitboxStep :: Effect.updateColor f s :: Effect.tallyIncr s ::
      Effect.masterUpdate :: es, r)

/-- The consumer `EncDecFrame._consumer` on the deque itself: `q.pop()`
takes the right end, so the invocation visits `q.reverse` oldest-first. -/
def _consumer (waitbox : W) (op : O) (q : List QItem) (tally : Tally) :
    List Effect × ConsumerRes W O :=
  consumerDrain waitbox op q.reverse tally

/-- A whole batch on the consumer side: between invocations the producer
pushes some more of its pending items; each schedule entry says how many
items are available to the next invocation.  `none` means the schedule ended
before the sentinel arrived. -/
def runBatch (waitbox : W) (op : O) (pending : List QItem) (tally : Tally) :
    List Nat → Option (Tally × List QItem)
  | [] => none
  | n :: rest =>
    match consumerDrain waitbox op (pending.take n) tally with
    | (_, .finalized t leftover) => some (t, leftover)
    | (_, .rescheduled _ _ _ _ t) => runBatch waitbox op (pending.drop n) t rest

/-- Effects of processing one outcome, used to state drain lemmas. -/
def outcomeEffects (out : List (String × Status)) : List Effect :=
  out.flatMap fun r =>
    [Effect.waitboxStep, Effect.updateColor r.1 r.2, Effect.tallyIncr r.2,
      Effect.masterUpdate]

/-- Number of `self.after` reschedules among a list of effects. -/
def rescheduleCount (es : List Effect) : Nat :=
  (es.filter fun e =>
    match e with
    | Effect.reschedule _ => true
    | _ => false).length

/-- UTF-8 byte length of a Python string, modelled as a list of code points:
`len(s.encode())`.  The password entry holds a `str`; the producer encodes it
to bytes, but `_prepare` measures `len(...)` on the `str` itself. -/
def utf8Len (s : List Char) : Nat :=
  (s.map Char.utf8Size).sum

/-- The three rejection branches of `EncDecFrame._prepare`. -/
inductive PrepareError where
  | noFiles
  | noPassword
  | shortPassword
deriving DecidableEq, Repr

/-- Pre-operation checks `EncDecFrame._prepare`: reject when the listbox is empty, when
`len(self._entry_pwd.get())` is zero, or when it is below 8; otherwise pass.
Note the length tested is the character count of the entry string. -/
def _prepare (items : List String) (pwd : List Char) : Option PrepareError :=
  if items.isEmpty then some .noFiles
  else if pwd.length = 0 then some .noPassword
  else if pwd.length < 8 then some .shortPassword
  else none

/-- What pressing Encrypt/Decrypt does: either a synchronous error dialog
with no batch machinery run at all, or a started batch whose producer will
relay the engine's outcomes. -/
inductive Submission where
  | rejected (err : PrepareError)
  | started (outcomes : List (String × Status))
deriving DecidableEq, Repr

/-- Handlers `EncDecFrame.on_encrypt` / `on_decrypt`: run `_prepare`; on failure show
the error and return before `_submit_task`; on success submit the batch,
whose producer iterates `files_locker` over the listbox items. -/
def on_encrypt (items : List String) (pwd : List Char)
    (classify : String → Status) : Submission :=
  match _prepare items pwd with
  | some e => .rejected e
  | none => .started (files_locker items classify)

/-- Outcomes ever delivered to the consumer for a submission: none at all
when the submission was rejected. -/
def submittedOutcomes : Submission → List (String × Status)
  | .rejected _ => []
  | .started o => o

def Submission.isRejected : Submission → Bool
  | .rejected _ => true
  | .started _ => false

/-- ASCII word character, the relevant fragment of a regex `\w`:
a letter, a digit or an underscore. -/
def wordChar (c : Char) : Bool :=
  c.isAlphanum || c == '_'

/-- A character matched by the class `[\w|\d]` of `SettingsPanel.on_apply`:
inside a character class the bar is а literal, so the class is the word
characters together with the bar itself (`\d` is already inside `\w`). -/
def extClassChar (c : Char) : Bool :=
  wordChar c || c == '|'

/-- The test `re.fullmatch(r"^\.[\w|\d]+", ext)` of `SettingsPanel.on_apply`:
the whole string must be a dot followed by one or more characters of the
class `[\w|\d]`. -/
def on_apply_accepts (s : List Char) : Bool :=
  match s with
  | c :: rest => c == '.' && !rest.isEmpty && rest.all extClassChar
  | [] => false

/-- The validation predicate as the claim words it: a dot followed by one or
more word characters. -/
def specExtensionValid (s : List Char) : Bool :=
  match s with
  | c :: rest => c == '.' && !rest.isEmpty && rest.all wordChar
  | [] => false

/-- Result of `SettingsPanel.on_apply`: on a failed extension check an error
dialog is shown and the handler returns without touching the config variable;
otherwise the four settings are serialized into it and the panel closes. -/
inductive ApplyResult where
  | applyError
  | applied (extension : List Char) (keylen : Nat) (aesMode : String)
      (backendName : String)
deriving DecidableEq, Repr

/-- The Apply handler `SettingsPanel.on_apply`. -/
def on_apply (ext : List Char) (keylen : Nat) (aesMode : String)
    (backendName : String) : ApplyResult :=
  if on_apply_accepts ext then .applied ext keylen aesMode backendName
  else .applyError

/-- Insertion `ListBox.add`: `self.insert("end", item)` only when the item
is not already among the listbox items. -/
def ListBox.add (items : List String) (item : String) : List String :=
  if item ∈ items then items else items ++ [item]

/-- Bulk insertion `ListBox.add_many`: `add` for each argument in order. -/
def ListBox.add_many (items : List String) (xs : List String) : List String :=
  xs.foldl ListBox.add items

/-- The row lookup of `EncDecFrame._update_listbox_color`:
`idx = self._listbox.items.index(fname)`, the first index of the path. -/
def colorRowIndex (items : List String) (fname : String) : Nat :=
  items.indexOf fname

/-- Modelled from the spec: the key-derivation step of the missing engine —
a key of the configured length (16/24/32) derived deterministically from the
password bytes. -/
def derivedKey (password : List Nat) (dklen : Nat) : List Nat :=
  (List.range dklen).map fun i => password.getD (i % password.length) 0

/-- Modelled from the spec: a deterministic keystream of the requested length
produced from the derived key by the selected backend and mode. -/
def keystream (key : List Nat) (n : Nat) : List Nat :=
  (List.range n).map fun i => key.getD (i % key.length) 0

/-- Tag length of the integrity check (an AEAD tag or a separate MAC). -/
def tagLen : Nat := 16

/-- Modelled from the spec: the authentication tag over the ciphertext —
an AEAD tag for authenticated modes, an HMAC for the others. -/
def macTag (key ct : List Nat) : List Nat :=
  (List.range tagLen).map fun i =>
    (key.getD (i % key.length) 0 + ct.foldl (· + ·) 0 + i) % 256

/-- Modelled from the spec: single-file encryption of the engine.  A key is
derived from the password at the configured length, the content is enciphered
with the keystream, and the container carries the integrity tag: ahead of the
ciphertext for authenticated (`aead`) modes, appended after it otherwise. -/
def encryptFile (content password : List Nat) (dklen : Nat) (aead : Bool) :
    List Nat :=
  let key := derivedKey password dklen
  let ct := List.zipWith Nat.xor content (keystream key content.length)
  if aead then macTag key ct ++ ct else ct ++ macTag key ct

/-- Modelled from the spec: single-file decryption of the engine.  The
container is split according to the mode, the tag is verified (failure means
the file is not a product of this tool: `none`, classified INVALID), and the
ciphertext is deciphered with the same keystream. -/
def decryptFile (blob password : List Nat) (dklen : Nat) (aead : Bool) :
    Option (List Nat) :=
  let key := derivedKey password dklen
  if blob.length < tagLen then none
  else
    let ct := if aead then blob.drop tagLen else blob.take (blob.length - tagLen)
    let tag := if aead then blob.take tagLen else blob.drop (blob.length - tagLen)
    if tag ≠ macTag key ct then none
    else some (List.zipWith Nat.xor ct (keystream key ct.length))

theorem dequePop_append_singleton (l : List α) (x : α) :
    dequePop (l ++ [x]) = some (x, l) := by
  induction l with
  | nil => rfl
  | cons a l ih =>
    cases l with
    | nil => simp [dequePop]
    | cons b l => simp [dequePop] at ih ⊢; rw [ih]

theorem dequePop_reverse_cons (x : α) (p : List α) :
    dequePop ((x :: p).reverse) = some (x, p.reverse) := by
  rw [List.reverse_cons, dequePop_append_singleton]

theorem sysStep_join (s : SysState) (b : Bool) :
    (sysStep s b).consumed ++ (sysStep s b).queue.reverse
        ++ (sysStep s b).pending
      = s.consumed ++ s.queue.reverse ++ s.pending := by
  cases b with
  | true =>
    cases h : s.pending with
    | nil => simp [sysStep, h]
    | cons i rest => simp [sysStep, h, appendleft]
  | false =>
    rcases List.eq_nil_or_concat s.queue with hq | ⟨l, a, hq⟩
    · simp [sysStep, hq, dequePop]
    · simp [sysStep, hq, dequePop_append_singleton]

theorem sysRun_join (sched : List Bool) (s : SysState) :
    (sysRun s sched).consumed ++ (sysRun s sched).queue.reverse
        ++ (sysRun s sched).pending
      = s.consumed ++ s.queue.reverse ++ s.pending := by
  induction sched generalizing s with
  | nil => rfl
  | cons b bs ih => rw [sysRun, ih, sysStep_join]

theorem Tally.bumpList_append (t : Tally) (a b : List (String × Status)) :
    t.bumpList (a ++ b) = (t.bumpList a).bumpList b := by
  simp [Tally.bumpList, List.foldl_append]

theorem Tally.get_bump (t : Tally) (s st : Status) :
    (t.bump s).get st = t.get st + (if st = s then 1 else 0) := by
  cases s <;> cases st <;> simp [Tally.bump, Tally.get]

theorem Tally.get_bumpList (t : Tally) (out : List (String × Status))
    (st : Status) :
    (t.bumpList out).get st
      = t.get st + (out.filter fun r => r.2 == st).length := by
  induction out generalizing t with
  | nil => simp [Tally.bumpList]
  | cons r out ih =>
    have hstep : t.bumpList (r :: out) = (t.bump r.2).bumpList out := rfl
    rw [hstep, ih, Tally.get_bump]
    by_cases h : r.2 = st
    · simp [List.filter_cons, h, Nat.add_comm, Nat.add_assoc, Nat.add_left_comm]
    · have h' : ¬ st = r.2 := fun hc => h hc.symm
      simp [List.filter_cons, h, h', beq_iff_eq]

theorem Tally.total_bump (t : Tally) (s : Status) :
    (t.bump s).total = t.total + 1 := by
  cases s <;> simp [Tally.bump, Tally.total] <;> omega

theorem Tally.total_bumpList (t : Tally) (out : List (String × Status)) :
    (t.bumpList out).total = t.total + out.length := by
  induction out generalizing t with
  | nil => simp [Tally.bumpList]
  | cons r out ih =>
    have hstep : t.bumpList (r :: out) = (t.bump r.2).bumpList out := rfl
    rw [hstep, ih, Tally.total_bump]
    simp only [List.length_cons]
    omega

theorem consumerDrain_outcomes (wb : W) (op : O)
    (out : List (String × Status)) (t : Tally) :
    consumerDrain wb op (out.map fun r => QItem.outcome r.1 r.2) t
      = (outcomeEffects out ++ [Effect.reschedule WAIT_TIME],
          ConsumerRes.rescheduled WAIT_TIME wb op [] (t.bumpList out)) := by
  induction out generalizing t with
  | nil => rfl
  | cons r out ih =>
    simp only [List.map_cons, consumerDrain, ih]
    simp [outcomeEffects, Tally.bumpList]

theorem consumerDrain_sentinel (wb : W) (op : O)
    (out : List (String × Status)) (rest : List QItem) (t : Tally) :
    consumerDrain wb op
        ((out.map fun r => QItem.outcome r.1 r.2) ++ QItem.sentinel :: rest) t
      = (outcomeEffects out
          ++ [Effect.waitboxDestroy, Effect.masterUpdate,
              Effect.showResult (t.bumpList out)],
          ConsumerRes.finalized (t.bumpList out) rest) := by
  induction out generalizing t with
  | nil => rfl
  | cons r out ih =>
    simp only [List.map_cons, List.cons_append, consumerDrain, ih]
    simp [outcomeEffects, Tally.bumpList, ih]

theorem rescheduleCount_outcomeEffects (out : List (String × Status)) :
    rescheduleCount (outcomeEffects out) = 0 := by
  induction out with
  | nil => rfl
  | cons r out ih =>
    simp [outcomeEffects, rescheduleCount, List.filter_append] at ih ⊢
    exact ih

theorem runBatch_some (wb : W) (op : O) (sched : List Nat) :
    ∀ (out : List (String × Status)) (t0 t : Tally) (leftover : List QItem),
    runBatch wb op (producerItems out) t0 sched = some (t, leftover) →
    t = t0.bumpList out ∧ leftover = [] := by
  induction sched with
  | nil => intro out t0 t leftover h; simp [runBatch] at h
  | cons n rest ih =>
    intro out t0 t leftover h
    by_cases hn : n ≤ out.length
    · have htake : (producerItems out).take n
          = (out.take n).map fun r => QItem.outcome r.1 r.2 := by
        rw [producerItems, List.take_append_of_le_length (by simpa using hn),
          List.map_take]
      have hdrop : (producerItems out).drop n = producerItems (out.drop n) := by
        unfold producerItems
        rw [List.drop_append_of_le_length (by simpa using hn), List.map_drop]
      rw [runBatch, htake, consumerDrain_outcomes, hdrop] at h
      obtain ⟨h1, h2⟩ := ih (out.drop n) _ t leftover h
      refine ⟨?_, h2⟩
      rw [h1, ← Tally.bumpList_append, List.take_append_drop]
    · have hall : (producerItems out).take n = producerItems out := by
        apply List.take_of_length_le
        simp [producerItems]
        omega
      have hsplit : producerItems out
          = (out.map fun r => QItem.outcome r.1 r.2)
              ++ QItem.sentinel :: [] := rfl
      rw [runBatch, hall, hsplit, consumerDrain_sentinel] at h
      simp at h
      exact ⟨h.1.symm, h.2⟩

theorem foldl_appendleft (l q : List α) :
    l.foldl appendleft q = l.reverse ++ q := by
  induction l generalizing q with
  | nil => simp
  | cons x l ih => simp [appendleft, ih]

theorem keystream_length (key : List Nat) (n : Nat) :
    (keystream key n).length = n := by
  simp [keystream]

theorem macTag_length (key ct : List Nat) :
    (macTag key ct).length = tagLen := by
  simp [macTag]

theorem zipWith_xor_cancel (a : List Nat) :
    ∀ b : List Nat, a.length ≤ b.length →
    List.zipWith Nat.xor (List.zipWith Nat.xor a b) b = a := by
  induction a with
  | nil => intro b _; simp
  | cons x a ih =>
    intro b hb
    cases b with
    | nil => simp at hb
    | cons y b =>
      simp only [List.zipWith_cons_cons]
      rw [show (x.xor y).xor y = x from Nat.xor_cancel_right y x,
        ih b (by simpa using hb)]

theorem length_le_utf8Len (s : List Char) : s.length ≤ utf8Len s := by
  induction s with
  | nil => simp [utf8Len]
  | cons c s ih =>
    have hc : 1 ≤ c.utf8Size := Char.utf8Size_pos c
    simp only [utf8Len, List.map_cons, List.sum_cons, List.length_cons]
    have := ih
    simp only [utf8Len] at this
    omega

theorem ListBox.add_nodup (items : List String) (x : String)
    (h : items.Nodup) : (ListBox.add items x).Nodup := by
  unfold ListBox.add
  split
  · exact h
  · next hx =>
    rw [List.nodup_append]
    exact ⟨h, List.nodup_singleton x, by simpa [List.disjoint_singleton] using hx⟩

theorem ListBox.add_many_nodup (xs : List String) :
    ∀ items : List String, items.Nodup → (ListBox.add_many items xs).Nodup := by
  induction xs with
  | nil => intro items h; exact h
  | cons x xs ih =>
    intro items h
    exact ih (ListBox.add items x) (ListBox.add_nodup items x h)

/-- Claim C1: for every batch of N input paths, under any interleaving in which the
producer has pushed everything and the consumer has drained the deque, the
consumer received exactly the N (path, status) outcomes followed by exactly
one sentinel — N + 1 items in total, with nothing before the batch or after
the sentinel, since the producer's pushes are exactly one per engine result
plus one final sentinel. -/
theorem claim1_batch_exact_outcomes_then_sentinel
    (paths : List String) (classify : String → Status) (sched : List Bool)
    (hp : (sysRun (initSys (files_locker paths classify)) sched).pending = [])
    (hq : (sysRun (initSys (files_locker paths classify)) sched).queue = []) :
    (sysRun (initSys (files_locker paths classify)) sched).consumed
      = ((files_locker paths classify).map fun r => QItem.outcome r.1 r.2)
          ++ [QItem.sentinel]
    ∧ (sysRun (initSys (files_locker paths classify)) sched).consumed.length
      = paths.length + 1 := by
  have h := sysRun_join sched (initSys (files_locker paths classify))
  rw [hp, hq] at h
  simp only [initSys, List.reverse_nil, List.append_nil, List.nil_append] at h
  refine ⟨h, ?_⟩
  rw [show (sysRun (initSys (files_locker paths classify)) sched).consumed
      = producerItems (files_locker paths classify) from h]
  simp [producerItems, files_locker]

/-- Witness for C1: a two-path batch where the producer pushes its three
items and the consumer then pops all three. -/
theorem claim1_witness :
    (sysRun (initSys (files_locker ["a", "b"] fun _ => Status.success))
        [true, true, true, false, false, false]).pending = []
    ∧ (sysRun (initSys (files_locker ["a", "b"] fun _ => Status.success))
        [true, true, true, false, false, false]).queue = []
    ∧ ((sysRun (initSys (files_locker ["a", "b"] fun _ => Status.success))
          [true, true, true, false, false, false]).consumed
        = ((files_locker ["a", "b"] fun _ => Status.success).map
            fun r => QItem.outcome r.1 r.2) ++ [QItem.sentinel]
      ∧ (sysRun (initSys (files_locker ["a", "b"] fun _ => Status.success))
          [true, true, true, false, false, false]).consumed.length
        = (["a", "b"] : List String).length + 1) :=
  ⟨rfl, rfl,
    claim1_batch_exact_outcomes_then_sentinel ["a", "b"]
      (fun _ => Status.success) [true, true, true, false, false, false]
      rfl rfl⟩

/-- Claim C5: a consumer invocation that pops through outcomes and then finds the
deque empty raises no error to its caller: it performs exactly one
`self.after` reschedule, after the fixed delay `WAIT_TIME = 200` ms, passing
along the same (now empty) queue, the same waitbox, operation and tally; the
degenerate case `out = []` is the invocation that finds the deque empty on
its very first pop attempt. -/
theorem claim5_empty_queue_reschedules {W O : Type} (wb : W) (op : O)
    (out : List (String × Status)) (t : Tally) :
    _consumer wb op [] t
        = ([Effect.reschedule WAIT_TIME],
            ConsumerRes.rescheduled WAIT_TIME wb op [] t)
    ∧ consumerDrain wb op (out.map fun r => QItem.outcome r.1 r.2) t
        = (outcomeEffects out ++ [Effect.reschedule WAIT_TIME],
            ConsumerRes.rescheduled WAIT_TIME wb op [] (t.bumpList out))
    ∧ rescheduleCount (outcomeEffects out ++ [Effect.reschedule WAIT_TIME]) = 1
    ∧ WAIT_TIME = 200 := by
  refine ⟨rfl, consumerDrain_outcomes wb op out t, ?_, rfl⟩
  have h0 := rescheduleCount_outcomeEffects out
  unfold rescheduleCount at h0 ⊢
  rw [List.filter_append, List.length_append, h0]
  rfl

/-- Claim C6: the handoff deque is FIFO — the producer's `appendleft` pushes build
the deque as the reverse of the push order, a `pop()` from the right end
returns the oldest item still queued, and under every interleaving the items
already consumed, the deque contents (oldest last) and the pushes still
pending concatenate to exactly the production order, outcomes first and the
sentinel last. -/
theorem claim6_fifo_order :
    (∀ (x : QItem) (p : List QItem),
        dequePop ((x :: p).reverse) = some (x, p.reverse))
    ∧ (∀ l : List QItem, l.foldl appendleft [] = l.reverse)
    ∧ (∀ (results : List (String × Status)) (sched : List Bool),
        (sysRun (initSys results) sched).consumed
            ++ (sysRun (initSys results) sched).queue.reverse
            ++ (sysRun (initSys results) sched).pending
          = producerItems results) := by
  refine ⟨fun x p => dequePop_reverse_cons x p,
    fun l => by simp [foldl_appendleft], fun results sched => ?_⟩
  have h := sysRun_join sched (initSys results)
  simpa [initSys] using h

/-- Claim C7: when the popped item is the sentinel the consumer finalizes: the
effects after the preceding outcomes are exactly destroying the waitbox, the
`master.update()` of `_cleanup` and rendering the tally in the results
message; the invocation schedules no further poll, and the sentinel itself
triggers no waitbox step, no listbox recolor and no tally increment — the
reported tally is exactly the one accumulated over the prior outcomes. -/
theorem claim7_sentinel_finalizes {W O : Type} (wb : W) (op : O)
    (out : List (String × Status)) (rest : List QItem) (t : Tally) :
    consumerDrain wb op
        ((out.map fun r => QItem.outcome r.1 r.2) ++ QItem.sentinel :: rest) t
      = (outcomeEffects out
          ++ [Effect.waitboxDestroy, Effect.masterUpdate,
              Effect.showResult (t.bumpList out)],
          ConsumerRes.finalized (t.bumpList out) rest)
    ∧ rescheduleCount (outcomeEffects out
          ++ [Effect.waitboxDestroy, Effect.masterUpdate,
              Effect.showResult (t.bumpList out)]) = 0 := by
  refine ⟨consumerDrain_sentinel wb op out rest t, ?_⟩
  have h0 := rescheduleCount_outcomeEffects out
  unfold rescheduleCount at h0 ⊢
  rw [List.filter_append, List.length_append, h0]
  rfl

/-- Claim C8: whatever the polling schedule, when a batch completes the tally shown
in the results message is correct — the count of each of the six statuses
equals the number of outcomes carrying that status (the tally dictionary is
created once and threaded through every rescheduled poll), the counts sum to
the number of input paths, and nothing is left after the sentinel. -/
theorem claim8_tally_correct {W O : Type} (wb : W) (op : O)
    (paths : List String) (classify : String → Status) (sched : List Nat)
    (t : Tally) (leftover : List QItem)
    (h : runBatch wb op (producerItems (files_locker paths classify))
        Tally.zero sched = some (t, leftover)) :
    (∀ st : Status,
        t.get st = (paths.filter fun p => classify p == st).length)
    ∧ t.total = paths.length
    ∧ leftover = [] := by
  obtain ⟨h1, h2⟩ := runBatch_some wb op sched (files_locker paths classify)
    Tally.zero t leftover h
  refine ⟨fun st => ?_, ?_, h2⟩
  · have hz : Tally.zero.get st = 0 := by cases st <;> rfl
    rw [h1, Tally.get_bumpList, hz, Nat.zero_add]
    simp [files_locker, List.filter_map, Function.comp_def]
  · rw [h1, Tally.total_bumpList]
    simp [Tally.zero, Tally.total, files_locker]

/-- Witness for C8: a two-file batch drained over two polls, one file per
status check; the tally reports two successes, total two, nothing left. -/
theorem claim8_witness :
    runBatch (0 : Nat) "encrypt"
        (producerItems (files_locker ["a", "b"] fun _ => Status.success))
        Tally.zero [1, 3] = some (⟨2, 0, 0, 0, 0, 0⟩, [])
    ∧ (∀ st : Status,
        Tally.get ⟨2, 0, 0, 0, 0, 0⟩ st
          = ((["a", "b"] : List String).filter
              fun p => (fun _ => Status.success) p == st).length)
    ∧ Tally.total ⟨2, 0, 0, 0, 0, 0⟩ = (["a", "b"] : List String).length :=
  ⟨by decide,
    (claim8_tally_correct 0 "encrypt" ["a", "b"] (fun _ => Status.success)
      [1, 3] ⟨2, 0, 0, 0, 0, 0⟩ [] (by decide)).1,
    (claim8_tally_correct 0 "encrypt" ["a", "b"] (fun _ => Status.success)
      [1, 3] ⟨2, 0, 0, 0, 0, 0⟩ [] (by decide)).2.1⟩

/-- Claim C2: round-trip — for every file content, every password of at least 8
bytes and every fixed job configuration (key length and mode class held
fixed), decrypting the encryption reproduces the original bytes exactly.
Settled against the spec-modelled engine, the crypto code being outside the
excerpted source. -/
theorem claim2_encrypt_decrypt_roundtrip
    (content password : List Nat) (dklen : Nat) (aead : Bool)
    (_hpwd : 8 ≤ password.length) :
    decryptFile (encryptFile content password dklen aead) password dklen aead
      = some content := by
  have hct : (List.zipWith Nat.xor content
      (keystream (derivedKey password dklen) content.length)).length
      = content.length := by
    simp [List.length_zipWith, keystream_length]
  cases aead with
  | true =>
    simp only [encryptFile, decryptFile, if_true, ite_true]
    rw [if_neg (by rw [List.length_append, macTag_length]; omega)]
    rw [List.take_left' (macTag_length _ _), List.drop_left' (macTag_length _ _)]
    rw [if_neg (by simp)]
    rw [hct, zipWith_xor_cancel _ _ (by rw [keystream_length])]
  | false =>
    simp only [encryptFile, decryptFile, Bool.false_eq_true, if_false, ite_false]
    have hlen : (List.zipWith Nat.xor content
          (keystream (derivedKey password dklen) content.length)
        ++ macTag (derivedKey password dklen)
          (List.zipWith Nat.xor content
            (keystream (derivedKey password dklen) content.length))).length
        - tagLen
        = content.length := by
      rw [List.length_append, macTag_length, hct]; omega
    rw [if_neg (by rw [List.length_append, macTag_length]; omega)]
    rw [hlen, List.take_left' hct, List.drop_left' hct]
    rw [if_neg (by simp)]
    rw [hct, zipWith_xor_cancel _ _ (by rw [keystream_length])]

/-- Witness for C2: a three-byte file and an eight-byte password round-trip
under both container layouts. -/
theorem claim2_witness :
    8 ≤ ([1, 2, 3, 4, 5, 6, 7, 8] : List Nat).length
    ∧ decryptFile
        (encryptFile [10, 200, 33] [1, 2, 3, 4, 5, 6, 7, 8] 32 true)
        [1, 2, 3, 4, 5, 6, 7, 8] 32 true = some [10, 200, 33] :=
  ⟨by decide,
    claim2_encrypt_decrypt_roundtrip [10, 200, 33] [1, 2, 3, 4, 5, 6, 7, 8]
      32 true (by decide)⟩

theorem _prepare_none_iff (items : List String) (pwd : List Char) :
    _prepare items pwd = none ↔ items ≠ [] ∧ 8 ≤ pwd.length := by
  unfold _prepare
  by_cases hi : items.isEmpty
  · simp [hi, List.isEmpty_iff.mp hi]
  · have hne : items ≠ [] := by simpa [List.isEmpty_iff] using hi
    rw [if_neg hi]
    by_cases h0 : pwd.length = 0
    · simp [h0, hne]
    · rw [if_neg h0]
      by_cases h8 : pwd.length < 8
      · simp only [if_pos h8]
        simp [hne]
        omega
      · simp only [if_neg h8]
        simp [hne]
        omega

/-- Counterexample for C3: a five-character password of two-byte characters
is 10 bytes long once encoded, yet `_prepare` rejects the submission, because
the code measures `len()` of the entry string (characters), not of its
encoding (bytes). -/
theorem claim3_counterexample :
    utf8Len ['α', 'α', 'α', 'α', 'α'] = 10
    ∧ 8 ≤ utf8Len ['α', 'α', 'α', 'α', 'α']
    ∧ _prepare ["a"] ['α', 'α', 'α', 'α', 'α']
        = some PrepareError.shortPassword
    ∧ (on_encrypt ["a"] ['α', 'α', 'α', 'α', 'α']
        fun _ => Status.success).isRejected = true := by
  decide

/-- Claim C3 (amended): the submission-time length check compares the character
count of the password entry, not its byte count: with files selected it
passes exactly when the password has at least 8 characters; and since every
character occupies at least one UTF-8 byte, every password shorter than
8 bytes is still rejected synchronously, with zero outcomes produced. -/
theorem claim3_password_length_check
    (items : List String) (pwd : List Char) (classify : String → Status) :
    (items ≠ [] → (_prepare items pwd = none ↔ 8 ≤ pwd.length))
    ∧ (utf8Len pwd < 8 →
        (on_encrypt items pwd classify).isRejected = true
        ∧ submittedOutcomes (on_encrypt items pwd classify) = []) := by
  constructor
  · intro hitems
    rw [_prepare_none_iff]
    simp [hitems]
  · intro hb
    have hlen : pwd.length < 8 :=
      lt_of_le_of_lt (length_le_utf8Len pwd) hb
    have hprep : ∃ e, _prepare items pwd = some e := by
      cases hp : _prepare items pwd with
      | some e => exact ⟨e, rfl⟩
      | none =>
        obtain ⟨-, h8⟩ := (_prepare_none_iff items pwd).mp hp
        omega
    obtain ⟨e, he⟩ := hprep
    simp [on_encrypt, he, Submission.isRejected, submittedOutcomes]

/-- Witness for C3 (amended): one file and a two-character ASCII password. -/
theorem claim3_witness :
    (["a"] : List String) ≠ []
    ∧ utf8Len ['p', 'w'] < 8
    ∧ (_prepare ["a"] ['p', 'w'] = none ↔ 8 ≤ (['p', 'w'] : List Char).length)
    ∧ ((on_encrypt ["a"] ['p', 'w'] fun _ => Status.success).isRejected = true
        ∧ submittedOutcomes
            (on_encrypt ["a"] ['p', 'w'] fun _ => Status.success) = []) :=
  ⟨by decide, by decide,
    (claim3_password_length_check ["a"] ['p', 'w']
      fun _ => Status.success).1 (by decide),
    (claim3_password_length_check ["a"] ['p', 'w']
      fun _ => Status.success).2 (by decide)⟩

theorem extClassChar_iff (c : Char) :
    extClassChar c = true ↔ wordChar c = true ∨ c = '|' := by
  simp [extClassChar]

/-- Counterexample for C4: the regex class `[\w|\d]` contains the literal
bar, so the extension `".|"` is accepted by `on_apply` and the configuration
applied, although the bar is not a word character. -/
theorem claim4_counterexample :
    on_apply_accepts ['.', '|'] = true
    ∧ specExtensionValid ['.', '|'] = false
    ∧ on_apply ['.', '|'] 32 "MODE_GCM" "Cryptography"
        = ApplyResult.applied ['.', '|'] 32 "MODE_GCM" "Cryptography" := by
  decide

/-- Claim C4 (amended): the Apply handler accepts a string exactly when it is a
dot followed by one or more characters that are each a word character or the
literal bar (the class `[\w|\d]` includes the bar); every other string is
rejected with an error and the configuration is not applied. -/
theorem claim4_extension_validation (s : List Char) (keylen : Nat)
    (aesMode backendName : String) :
    (on_apply_accepts s = true
      ↔ ∃ rest, s = '.' :: rest ∧ rest ≠ []
          ∧ ∀ c ∈ rest, wordChar c = true ∨ c = '|')
    ∧ (on_apply s keylen aesMode backendName = ApplyResult.applyError
      ↔ on_apply_accepts s = false) := by
  constructor
  · cases s with
    | nil => simp [on_apply_accepts]
    | cons c rest =>
      simp only [on_apply_accepts, Bool.and_eq_true, beq_iff_eq,
        Bool.not_eq_true', List.isEmpty_eq_false, List.all_eq_true,
        extClassChar_iff, List.cons.injEq]
      constructor
      · rintro ⟨⟨hc, hne⟩, hall⟩
        exact ⟨rest, ⟨hc, rfl⟩, hne, hall⟩
      · rintro ⟨rest', ⟨hc, hr⟩, hne, hall⟩
        subst hr
        exact ⟨⟨hc, hne⟩, hall⟩
  · by_cases ha : on_apply_accepts s <;> simp [on_apply, ha]

/-- Claim C9: submitting with an empty file list is rejected with the no-files
error; a non-empty list with an empty password is rejected with the
no-password error; a rejected submission produces zero outcomes; and a batch
is started exactly when the list is non-empty and the password passes the
length check. -/
theorem claim9_submission_preconditions
    (items : List String) (pwd : List Char) (classify : String → Status) :
    on_encrypt [] pwd classify = Submission.rejected PrepareError.noFiles
    ∧ (items ≠ [] →
        on_encrypt items [] classify
          = Submission.rejected PrepareError.noPassword)
    ∧ ((on_encrypt items pwd classify).isRejected = true →
        submittedOutcomes (on_encrypt items pwd classify) = [])
    ∧ ((on_encrypt items pwd classify).isRejected = false
        ↔ items ≠ [] ∧ 8 ≤ pwd.length) := by
  refine ⟨rfl, ?_, ?_, ?_⟩
  · intro h
    have hi : items.isEmpty = false := by
      cases items with
      | nil => exact absurd rfl h
      | cons a l => rfl
    simp [on_encrypt, _prepare, hi]
  · cases hp : _prepare items pwd with
    | some e => simp [on_encrypt, hp, submittedOutcomes]
    | none => simp [on_encrypt, hp, Submission.isRejected]
  · rw [← _prepare_none_iff]
    cases hp : _prepare items pwd with
    | some e => simp [on_encrypt, hp, Submission.isRejected]
    | none => simp [on_encrypt, hp, Submission.isRejected]

/-- Witness for C9: one file, empty password. -/
theorem claim9_witness :
    on_encrypt [] ['x', 'x', 'x', 'x', 'x', 'x', 'x', 'x']
        (fun _ => Status.success)
      = Submission.rejected PrepareError.noFiles
    ∧ on_encrypt ["a"] [] (fun _ => Status.success)
      = Submission.rejected PrepareError.noPassword
    ∧ submittedOutcomes (on_encrypt ["a"] [] fun _ => Status.success) = [] :=
  ⟨(claim9_submission_preconditions ["a"] []
      fun _ => Status.success).1,
    (claim9_submission_preconditions ["a"] []
      fun _ => Status.success).2.1 (by decide),
    (claim9_submission_preconditions ["a"] []
      fun _ => Status.success).2.2.1 (by decide)⟩

/-- Claim C10: `ListBox.add` inserts only absent items and so preserves
duplicate-freeness (hence so does `add_many`), and in a duplicate-free
listbox the first index used by `_update_listbox_color` identifies the
unique row holding the outcome's path. -/
theorem claim10_listbox_unique (items : List String) (x fname : String)
    (xs : List String) :
    (items.Nodup → (ListBox.add items x).Nodup)
    ∧ (items.Nodup → (ListBox.add_many items xs).Nodup)
    ∧ (items.Nodup → ∀ i : Fin items.length,
        items.get i = fname → i.val = colorRowIndex items fname) := by
  refine ⟨ListBox.add_nodup items x,
    fun h => ListBox.add_many_nodup xs items h, ?_⟩
  intro h i hi
  have hmem : fname ∈ items := hi ▸ items.get_mem i.1 i.2
  have hlt : items.indexOf fname < items.length :=
    List.indexOf_lt_length.mpr hmem
  have hget : items.get ⟨items.indexOf fname, hlt⟩ = fname :=
    List.indexOf_get hlt
  have heq : items.get i = items.get ⟨items.indexOf fname, hlt⟩ := by
    rw [hi, hget]
  have := (List.Nodup.get_inj_iff h).mp heq
  simpa [colorRowIndex] using congrArg Fin.val this

/-- Witness for C10: a two-row listbox, a duplicate add, a mixed add_many
and the row lookup for the second path. -/
theorem claim10_witness :
    (["a", "b"] : List String).Nodup
    ∧ (ListBox.add ["a", "b"] "a").Nodup
    ∧ (ListBox.add_many ["a", "b"] ["b", "c"]).Nodup
    ∧ (1 : Nat) = colorRowIndex ["a", "b"] "b" :=
  ⟨by decide,
    (claim10_listbox_unique ["a", "b"] "a" "b" ["b", "c"]).1 (by decide),
    (claim10_listbox_unique ["a", "b"] "a" "b" ["b", "c"]).2.1 (by decide),
    (claim10_listbox_unique ["a", "b"] "a" "b" ["b", "c"]).2.2 (by decide)
      ⟨1, by decide⟩ (by decide)⟩

end Pycryptor
